import Mathlib

/-!
# Formal model of the Network Topology Visualizer (`src/visualizer.py`)

This file embeds the data model and operations of `visualizer.py` in Lean 4
and proves the specification claims about them.

Modelling conventions:
* JSON values are modelled by the inductive type `JSON`; JSON numbers and
  Python floats are modelled as rationals (`ℚ`), which is exact for every
  value appearing in the claims.
* The NetworkX undirected graph is modelled by `Graph`: a node list in
  insertion order and an edge list of endpoint pairs with a rational weight;
  `addNode` and `addEdge` mirror `G.add_node` / `G.add_edge` (an unordered
  duplicate edge overwrites the stored weight, as a NetworkX edge-data dict
  update does).
* Fallible Python operations (`float(...)`, `len`/indexing, the `in`
  operator) are modelled with `Except PyErr`; an unhandled Python exception
  is an `.error`.
* `nx.dijkstra_path` / `nx.dijkstra_path_length` (external library calls)
  are modelled by minimisation of the total edge weight over all simple
  paths of the graph (`dijkstraPath?`), which is the documented behaviour
  of Dijkstra's algorithm on non-negative weights.
-/

/-- A JSON value as produced by `json.load`.  Numbers are modelled as
rationals. -/
inductive JSON where
  | null
  | bool (b : Bool)
  | num (q : ℚ)
  | str (s : String)
  | arr (elems : List JSON)
  | obj (fields : List (String × JSON))

mutual

/-- Boolean equality on `JSON` (structural). -/
def JSON.beq : JSON → JSON → Bool
  | .null, .null => true
  | .bool a, .bool b => a == b
  | .num a, .num b => a == b
  | .str a, .str b => a == b
  | .arr as, .arr bs => JSON.beqList as bs
  | .obj fs, .obj gs => JSON.beqObj fs gs
  | _, _ => false

/-- Boolean equality on lists of `JSON` values. -/
def JSON.beqList : List JSON → List JSON → Bool
  | [], [] => true
  | a :: as, b :: bs => JSON.beq a b && JSON.beqList as bs
  | _, _ => false

/-- Boolean equality on JSON object field lists. -/
def JSON.beqObj : List (String × JSON) → List (String × JSON) → Bool
  | [], [] => true
  | (k, v) :: fs, (k2, v2) :: gs => k == k2 && JSON.beq v v2 && JSON.beqObj fs gs
  | _, _ => false

end

mutual

def JSON.beq_refl : (a : JSON) → JSON.beq a a = true
  | .null => rfl
  | .bool b => by simp [JSON.beq]
  | .num q => by simp [JSON.beq]
  | .str s => by simp [JSON.beq]
  | .arr as => by simp [JSON.beq, JSON.beqList_refl as]
  | .obj fs => by simp [JSON.beq, JSON.beqObj_refl fs]

def JSON.beqList_refl : (as : List JSON) → JSON.beqList as as = true
  | [] => rfl
  | a :: as => by simp [JSON.beqList, JSON.beq_refl a, JSON.beqList_refl as]

def JSON.beqObj_refl : (fs : List (String × JSON)) → JSON.beqObj fs fs = true
  | [] => rfl
  | (k, v) :: fs => by simp [JSON.beqObj, JSON.beq_refl v, JSON.beqObj_refl fs]

end

mutual

def JSON.eq_of_beq : (a b : JSON) → JSON.beq a b = true → a = b
  | .null, .null, _ => rfl
  | .bool a, .bool b, h => by simp [JSON.beq] at h; simp [h]
  | .num a, .num b, h => by simp [JSON.beq] at h; simp [h]
  | .str a, .str b, h => by simp [JSON.beq] at h; simp [h]
  | .arr as, .arr bs, h => by
      simp only [JSON.beq] at h
      simp [JSON.eqList_of_beq as bs h]
  | .obj fs, .obj gs, h => by
      simp only [JSON.beq] at h
      simp [JSON.eqObj_of_beq fs gs h]
  | .null, .bool _, h => by simp [JSON.beq] at h
  | .null, .num _, h => by simp [JSON.beq] at h
  | .null, .str _, h => by simp [JSON.beq] at h
  | .null, .arr _, h => by simp [JSON.beq] at h
  | .null, .obj _, h => by simp [JSON.beq] at h
  | .bool _, .null, h => by simp [JSON.beq] at h
  | .bool _, .num _, h => by simp [JSON.beq] at h
  | .bool _, .str _, h => by simp [JSON.beq] at h
  | .bool _, .arr _, h => by simp [JSON.beq] at h
  | .bool _, .obj _, h => by simp [JSON.beq] at h
  | .num _, .null, h => by simp [JSON.beq] at h
  | .num _, .bool _, h => by simp [JSON.beq] at h
  | .num _, .str _, h => by simp [JSON.beq] at h
  | .num _, .arr _, h => by simp [JSON.beq] at h
  | .num _, .obj _, h => by simp [JSON.beq] at h
  | .str _, .null, h => by simp [JSON.beq] at h
  | .str _, .bool _, h => by simp [JSON.beq] at h
  | .str _, .num _, h => by simp [JSON.beq] at h
  | .str _, .arr _, h => by simp [JSON.beq] at h
  | .str _, .obj _, h => by simp [JSON.beq] at h
  | .arr _, .null, h => by simp [JSON.beq] at h
  | .arr _, .bool _, h => by simp [JSON.beq] at h
  | .arr _, .num _, h => by simp [JSON.beq] at h
  | .arr _, .str _, h => by simp [JSON.beq] at h
  | .arr _, .obj _, h => by simp [JSON.beq] at h
  | .obj _, .null, h => by simp [JSON.beq] at h
  | .obj _, .bool _, h => by simp [JSON.beq] at h
  | .obj _, .num _, h => by simp [JSON.beq] at h
  | .obj _, .str _, h => by simp [JSON.beq] at h
  | .obj _, .arr _, h => by simp [JSON.beq] at h

def JSON.eqList_of_beq : (as bs : List JSON) → JSON.beqList as bs = true → as = bs
  | [], [], _ => rfl
  | a :: as, b :: bs, h => by
      simp only [JSON.beqList, Bool.and_eq_true] at h
      simp [JSON.eq_of_beq a b h.1, JSON.eqList_of_beq as bs h.2]
  | [], _ :: _, h => by simp [JSON.beqList] at h
  | _ :: _, [], h => by simp [JSON.beqList] at h

def JSON.eqObj_of_beq :
    (fs gs : List (String × JSON)) → JSON.beqObj fs gs = true → fs = gs
  | [], [], _ => rfl
  | (k, v) :: fs, (k2, v2) :: gs, h => by
      simp only [JSON.beqObj, Bool.and_eq_true] at h
      obtain ⟨⟨h1, h2⟩, h3⟩ := h
      simp_all [JSON.eq_of_beq v v2 h2, JSON.eqObj_of_beq fs gs h3]
  | [], _ :: _, h => by simp [JSON.beqObj] at h
  | _ :: _, [], h => by simp [JSON.beqObj] at h

end

instance : DecidableEq JSON := fun a b =>
  if h : JSON.beq a b = true then isTrue (JSON.eq_of_beq a b h)
  else isFalse (fun e => h (e ▸ JSON.beq_refl a))

instance {ε α : Type} [DecidableEq ε] [DecidableEq α] : DecidableEq (Except ε α) := fun x y =>
  match x, y with
  | .ok a, .ok b => if h : a = b then isTrue (by rw [h]) else isFalse (by simp [h])
  | .error a, .error b => if h : a = b then isTrue (by rw [h]) else isFalse (by simp [h])
  | .ok _, .error _ => isFalse (by simp)
  | .error _, .ok _ => isFalse (by simp)

/-- A Python exception raised by one of the modelled primitive operations. -/
inductive PyErr where
  | valueError
  | typeError
  | attributeError
deriving DecidableEq

/-- The numeric value of a digit string (most significant digit first). -/
def digitsToNat (cs : List Char) : ℕ :=
  cs.foldl (fun acc c => acc * 10 + (c.toNat - 48)) 0

/-- Models Python's `float(s)` on strings for the plain-decimal fragment:
an optional sign, digits, and an optional fractional part (`"2"`, `"2.5"`,
`".5"`, `"-3."`, ...).  Returns `none` for strings outside this fragment.
This under-approximates Python, which also accepts exponent notation,
surrounding whitespace, digit underscores, and `inf`/`nan` (the last two
have no rational value at all); theorems about the weight of an edge are
therefore stated under the hypothesis that the coercion succeeds in the
model, never asserting an outcome for a string outside the fragment. -/
def parseDecimal? (s : String) : Option ℚ :=
  let core : List Char → Option ℚ := fun cs =>
    let ip := cs.takeWhile (fun c => c.isDigit)
    let rest := cs.drop ip.length
    match rest with
    | [] => if ip.isEmpty then none else some (digitsToNat ip)
    | c :: fp =>
        if c == '.' && fp.all (fun d => d.isDigit) && !(ip.isEmpty && fp.isEmpty) then
          some ((digitsToNat ip : ℚ) + (digitsToNat fp : ℚ) / ((10 : ℚ) ^ fp.length))
        else none
  match s.toList with
  | '-' :: rest => (core rest).map (fun q => -q)
  | '+' :: rest => core rest
  | cs => core cs

/-- Models Python's `float(x)` coercion: numbers pass through, booleans
become `0`/`1`, decimal strings are parsed (`ValueError` otherwise), and
any other value raises `TypeError`. -/
def pyFloat : JSON → Except PyErr ℚ
  | .num q => .ok q
  | .bool b => .ok (if b then 1 else 0)
  | .str s =>
      match parseDecimal? s with
      | some q => .ok q
      | none => .error .valueError
  | _ => .error .typeError

/-- Models Python sequence access (`len`, indexing, iteration) on a JSON
value: lists yield their elements, strings their characters (as one-element
strings), dicts their keys, and other values raise `TypeError`.  For `len`
and iteration this is exact; for positional indexing it is exact on lists
and strings only — Python dict indexing `conn[0]` on a string-keyed dict
raises `KeyError` instead of returning a key — so every theorem about the
edge added from a row excludes dict rows from its scope. -/
def pySeq : JSON → Except PyErr (List JSON)
  | .arr xs => .ok xs
  | .str s => .ok (s.toList.map (fun c => JSON.str (String.mk [c])))
  | .obj fs => .ok (fs.map (fun f => JSON.str f.1))
  | _ => .error .typeError

/-- Lookup of a key in a parsed JSON object (`data[k]` / `data.get(k)` on a
dict whose keys are unique, as `json.load` produces). -/
def dictGet (fields : List (String × JSON)) (k : String) : Option JSON :=
  (fields.find? (fun f => f.1 == k)).map (fun f => f.2)

/-- `leadMatch pat cs` is true when `pat` occurs at the front of `cs`. -/
def leadMatch : List Char → List Char → Bool
  | [], _ => true
  | _ :: _, [] => false
  | a :: as, b :: bs => a == b && leadMatch as bs

/-- `subSeqAt pat cs` is true when `pat` occurs contiguously somewhere in
`cs`. -/
def subSeqAt : List Char → List Char → Bool
  | pat, [] => pat.isEmpty
  | pat, c :: rest => leadMatch pat (c :: rest) || subSeqAt pat rest

/-- Python's substring test `needle in hay` on strings. -/
def pyInStr (needle hay : String) : Bool := subSeqAt needle.toList hay.toList

/-- Models Python's `k in data` membership test: key membership for dicts,
element equality for lists, substring search for strings, and `TypeError`
for non-iterable values. -/
def pyContains (data : JSON) (k : String) : Except PyErr Bool :=
  match data with
  | .obj fs => .ok (fs.any (fun f => f.1 == k))
  | .arr xs => .ok (xs.any (fun x => x == JSON.str k))
  | .str s => .ok (pyInStr k s)
  | _ => .error .typeError

/-- The NetworkX undirected graph built by the tool: nodes in insertion
order (a Python dict preserves insertion order) and undirected weighted
edges, at most one per unordered endpoint pair. -/
structure Graph where
  nodes : List JSON
  edges : List (JSON × JSON × ℚ)
deriving DecidableEq

/-- The empty graph `nx.Graph()`. -/
def Graph.empty : Graph := ⟨[], []⟩

/-- `pairMatches u v x y` is true when the unordered pair `{x, y}` equals
the unordered pair `{u, v}`. -/
def pairMatches (u v x y : JSON) : Bool :=
  (x == u && y == v) || (x == v && y == u)

/-- `G.add_node(n)`: appends `n` to the node list if not already present. -/
def addNode (G : Graph) (n : JSON) : Graph :=
  if n ∈ G.nodes then G else { G with nodes := G.nodes ++ [n] }

/-- `G.add_edge(u, v, weight := w)`: adds missing endpoints as nodes, then
either overwrites the weight of the existing undirected edge `{u, v}` or
appends a new edge.  The model compares node labels structurally; Python
instead raises `TypeError` on unhashable (list/dict) labels and identifies
`True`/`1`/`1.0` as one dict key.  Theorems about the edge added from a
row therefore require hashable endpoints, and no theorem asserts a
cross-type node identification. -/
def addEdge (G : Graph) (u v : JSON) (w : ℚ) : Graph :=
  let G1 := addNode (addNode G u) v
  if G1.edges.any (fun e => pairMatches u v e.1 e.2.1) then
    { G1 with
      edges := G1.edges.map (fun e =>
        if pairMatches u v e.1 e.2.1 then (e.1, e.2.1, w) else e) }
  else
    { G1 with edges := G1.edges ++ [(u, v, w)] }

/-- The stored weight of the undirected edge `{u, v}`, if present. -/
def edgeWeight? (G : Graph) (u v : JSON) : Option ℚ :=
  (G.edges.find? (fun e => pairMatches u v e.1 e.2.1)).map (fun e => e.2.2)

/-- Whether the undirected edge `{u, v}` is present. -/
def hasEdge (G : Graph) (u v : JSON) : Bool := (edgeWeight? G u v).isSome

/-- A well-formed graph: every edge endpoint is a node.  Every graph
reachable through `addNode`/`addEdge` (hence every NetworkX graph) has this
property. -/
def Graph.Wf (G : Graph) : Prop :=
  ∀ e ∈ G.edges, e.1 ∈ G.nodes ∧ e.2.1 ∈ G.nodes

/-- The body of the connection loop of `build_graph`: skip rows with fewer
than two elements, otherwise add an edge between the first two elements
with the third element coerced by `float` as weight (default `1.0`).
A failing coercion propagates the Python exception. -/
def applyConn (G : Graph) (conn : JSON) : Except PyErr Graph :=
  match pySeq conn with
  | .error e => .error e
  | .ok xs =>
      match xs with
      | u :: v :: rest =>
          match rest with
          | [] => .ok (addEdge G u v 1)
          | z :: _ =>
              match pyFloat z with
              | .error e => .error e
              | .ok w => .ok (addEdge G u v w)
      | _ => .ok G

/-- The `for conn in data.get("connections", [])` loop of `build_graph`:
process each connection row in order, propagating the first exception. -/
def buildEdges (G : Graph) : List JSON → Except PyErr Graph
  | [] => .ok G
  | conn :: rest =>
      match applyConn G conn with
      | .error e => .error e
      | .ok G1 => buildEdges G1 rest

/-- `build_graph(data)` from `visualizer.py`: add every device of
`data.get("devices", [])` as a node, then process each row of
`data.get("connections", [])` with `applyConn`.  A non-dict `data` raises
`AttributeError` at the first `.get` call. -/
def build_graph (data : JSON) : Except PyErr Graph :=
  match data with
  | .obj fields =>
      match pySeq ((dictGet fields "devices").getD (.arr [])) with
      | .error e => .error e
      | .ok devices =>
          match pySeq ((dictGet fields "connections").getD (.arr [])) with
          | .error e => .error e
          | .ok conns => buildEdges (devices.foldl addNode Graph.empty) conns
  | _ => .error .attributeError

/-- The observable input of `load_network`: the file is missing, its content
fails to parse as JSON, or it parses to a JSON value. -/
inductive FileInput where
  | missing
  | badJSON
  | parsed (data : JSON)

/-- The observable outcome of `load_network`: `sys.exit(code)` after a
printed diagnostic, an unhandled Python exception, or the parsed data. -/
inductive LoadResult where
  | exited (code : ℕ)
  | raised (e : PyErr)
  | loaded (data : JSON)
deriving DecidableEq

/-- `load_network(file_path)` from `visualizer.py`: exit `1` on a missing
file or invalid JSON; exit `1` when either Python membership test
`"devices" in data` / `"connections" in data` fails (evaluated left to
right, short-circuiting); otherwise return the parsed data. -/
def load_network : FileInput → LoadResult
  | .missing => .exited 1
  | .badJSON => .exited 1
  | .parsed data =>
      match pyContains data "devices" with
      | .error e => .raised e
      | .ok b1 =>
          if !b1 then .exited 1
          else
            match pyContains data "connections" with
            | .error e => .raised e
            | .ok b2 => if !b2 then .exited 1 else .loaded data

/-- `isPath G p` holds when `p` is a nonempty node sequence whose
consecutive pairs are edges of `G` (a single node is a path exactly when it
is a node of `G`). -/
def isPath (G : Graph) : List JSON → Bool
  | [] => false
  | [x] => G.nodes.contains x
  | x :: y :: rest => hasEdge G x y && isPath G (y :: rest)

/-- The total edge weight along a node sequence. -/
def pathCost (G : Graph) : List JSON → ℚ
  | x :: y :: rest => (edgeWeight? G x y).getD 0 + pathCost G (y :: rest)
  | _ => 0

/-- All duplicate-free lists drawn from the node list `ns`: the
permutations of the sublists of `ns` (with duplicates in `ns` removed). -/
def candidatePaths (ns : List JSON) : List (List JSON) :=
  ns.dedup.sublists.flatMap List.permutations'

/-- All simple paths of `G` from `s` to `t`. -/
def simplePaths (G : Graph) (s t : JSON) : List (List JSON) :=
  (candidatePaths G.nodes).filter
    (fun p => isPath G p && p.head? == some s && p.getLast? == some t)

/-- Models `nx.dijkstra_path(G, s, t, weight := "weight")` as a simple path
from `s` to `t` of minimum total weight, or `none` when no path exists.
This total minimisation represents the library call only on non-negative
weights — the domain the specification assigns to the path finder; on
negative weights the library may raise an uncaught `ValueError` or return
non-minimal costs, so every theorem about `compute_shortest_path` carries
a non-negative-weight hypothesis. -/
def dijkstraPath? (G : Graph) (s t : JSON) : Option (List JSON) :=
  (simplePaths G s t).argmin (pathCost G)

/-- `compute_shortest_path(G, source, target)` from `visualizer.py`:
`(None, None)` when an endpoint is missing from the graph or no path
exists (`nx.NetworkXNoPath`), otherwise the shortest path and its cost. -/
def compute_shortest_path (G : Graph) (source target : JSON) :
    Option (List JSON) × Option ℚ :=
  if !(G.nodes.contains source) || !(G.nodes.contains target) then (none, none)
  else
    match dijkstraPath? G source target with
    | some p => (some p, some (pathCost G p))
    | none => (none, none)

/-- The endpoint-defaulting step of `main`: `devices = list(G.nodes())`,
`src = args.source if args.source else devices[0]`, and
`tgt = args.target if args.target else devices[-1]`.  An empty-string
option is falsy in Python and also falls back to the default.  `none`
models the unhandled `IndexError` raised by `devices[0]` / `devices[-1]`
on an empty node list. -/
def selectEndpoints (G : Graph) (srcArg tgtArg : Option String) :
    Option (JSON × JSON) := do
  let devices := G.nodes
  let src ← match srcArg with
    | some s => if s.isEmpty then devices.head? else some (JSON.str s)
    | none => devices.head?
  let tgt ← match tgtArg with
    | some s => if s.isEmpty then devices.getLast? else some (JSON.str s)
    | none => devices.getLast?
  pure (src, tgt)

/-- Whether a JSON value is an object with key `k` — the reading of
"required key present" in the specification of the loader. -/
def jsonHasKey (j : JSON) (k : String) : Bool :=
  match j with
  | .obj fs => fs.any (fun f => f.1 == k)
  | _ => false

/-- The weight contribution of one connection row to the unordered pair
`{u, v}`: `some w` when the row has at least two elements, its first two
elements form the pair `{u, v}`, and its weight resolves to `w` (third
element coerced by `float`, default `1`). -/
def connWeight? (u v : JSON) (conn : JSON) : Option ℚ :=
  match pySeq conn with
  | .ok (a :: b :: rest) =>
      if pairMatches u v a b then
        match rest with
        | [] => some 1
        | z :: _ => (pyFloat z).toOption
      else none
  | _ => none

/-- The weight of the last connection row for the unordered pair `{u, v}`
in input order, if any row mentions that pair. -/
def connsLastWeight (conns : List JSON) (u v : JSON) : Option ℚ :=
  match conns with
  | [] => none
  | conn :: rest => (connsLastWeight rest u v).or (connWeight? u v conn)

/-- The number of stored edges for the unordered pair `{u, v}`. -/
def pairCount (G : Graph) (u v : JSON) : ℕ :=
  G.edges.countP (fun e => pairMatches u v e.1 e.2.1)

/-- The worked example of the specification: devices `["A","B","C"]` with
connections `[["A","B",2],["B","C",3]]`. -/
def sampleNetwork : JSON :=
  .obj [("devices", .arr [.str "A", .str "B", .str "C"]),
    ("connections", .arr [.arr [.str "A", .str "B", .num 2],
      .arr [.str "B", .str "C", .num 3]])]

/-- An input whose connection row carries a weight that `float` cannot
coerce. -/
def badWeightNetwork : JSON :=
  .obj [("devices", .arr [.str "A"]),
    ("connections", .arr [.arr [.str "A", .str "B", .str "oops"]])]

/-- An input whose single connection references the identifier `"C"` that
is not in the device list. -/
def strayEndpointNetwork : JSON :=
  .obj [("devices", .arr [.str "A", .str "B"]),
    ("connections", .arr [.arr [.str "B", .str "C"]])]

/-- A JSON array whose elements happen to be the strings `"devices"` and
`"connections"`; as a non-object it has no keys at all. -/
def arrayKeysValue : JSON := .arr [.str "devices", .str "connections"]

/-- An input with two connection rows for the same unordered pair
`{A, B}`, first with weight `2`, then with weight `5`. -/
def dupPairNetwork : JSON :=
  .obj [("devices", .arr [.str "A", .str "B"]),
    ("connections", .arr [.arr [.str "A", .str "B", .num 2],
      .arr [.str "A", .str "B", .num 5]])]

/-- A valid input with an empty device list and no usable connection row
(its only row has a single element). -/
def emptyDevicesNetwork : JSON :=
  .obj [("devices", .arr []),
    ("connections", .arr [.arr [.str "A"]])]

/-- A two-node graph with a single edge of weight `1` (used to instantiate
the weight-monotonicity theorem). -/
def monoGraphLight : Graph := ⟨[.str "A", .str "B"], [(.str "A", .str "B", 1)]⟩

/-- The same topology as `monoGraphLight` with the edge weight raised
to `2`. -/
def monoGraphHeavy : Graph := ⟨[.str "A", .str "B"], [(.str "A", .str "B", 2)]⟩

/-- Whether a JSON value is a Python dict (a JSON object). -/
def pyIsDict : JSON → Bool
  | .obj _ => true
  | _ => false

/-- Whether a Python value is hashable and thus usable as a graph node:
scalars (`None`, booleans, numbers, strings) are, lists and dicts are
not (`nx.add_edge` raises `TypeError` on them). -/
def pyHashable : JSON → Bool
  | .arr _ => false
  | .obj _ => false
  | _ => true

theorem addNode_edges (G : Graph) (n : JSON) : (addNode G n).edges = G.edges := by
  unfold addNode; split <;> rfl

theorem mem_addNode_iff {G : Graph} {n m : JSON} :
    m ∈ (addNode G n).nodes ↔ m = n ∨ m ∈ G.nodes := by
  unfold addNode
  split <;> simp_all
  tauto

theorem addNode_of_mem {G : Graph} {n : JSON} (h : n ∈ G.nodes) : addNode G n = G := by
  simp [addNode, h]

theorem addEdge_nodes (G : Graph) (u v : JSON) (w : ℚ) :
    (addEdge G u v w).nodes = (addNode (addNode G u) v).nodes := by
  simp only [addEdge]
  split <;> rfl

theorem addEdge_edges (G : Graph) (a b : JSON) (w : ℚ) :
    (addEdge G a b w).edges =
      if G.edges.any (fun e => pairMatches a b e.1 e.2.1) then
        G.edges.map (fun e =>
          if pairMatches a b e.1 e.2.1 then (e.1, e.2.1, w) else e)
      else G.edges ++ [(a, b, w)] := by
  simp only [addEdge, addNode_edges]
  split <;> rfl

theorem pairMatches_iff {u v x y : JSON} :
    pairMatches u v x y = true ↔ (x = u ∧ y = v) ∨ (x = v ∧ y = u) := by
  simp [pairMatches]

theorem pairMatches_self (u v : JSON) : pairMatches u v u v = true := by
  simp [pairMatches_iff]

theorem pairMatches_swap_self (u v : JSON) : pairMatches u v v u = true := by
  simp [pairMatches_iff]

theorem pairMatches_symm (u v x y : JSON) :
    pairMatches v u x y = pairMatches u v x y := by
  simp [pairMatches, Bool.or_comm]

theorem pairMatches_congr {u v a b : JSON} (h : pairMatches u v a b = true)
    (x y : JSON) : pairMatches u v x y = pairMatches a b x y := by
  rcases pairMatches_iff.1 h with ⟨h1, h2⟩ | ⟨h1, h2⟩
  · rw [h1, h2]
  · rw [h1, h2, pairMatches_symm]

theorem pairMatches_of_both {u v a b x y : JSON} (h1 : pairMatches u v x y = true)
    (h2 : pairMatches a b x y = true) : pairMatches u v a b = true := by
  simp only [pairMatches_iff] at h1 h2 ⊢
  rcases h1 with ⟨hx, hy⟩ | ⟨hx, hy⟩ <;> rcases h2 with ⟨ga, gb⟩ | ⟨ga, gb⟩ <;>
    subst hx <;> subst hy <;> simp_all

theorem find?_map_overwrite (u v a b : JSON) (w : ℚ) (es : List (JSON × JSON × ℚ)) :
    (es.map (fun e => if pairMatches a b e.1 e.2.1 then (e.1, e.2.1, w) else e)).find?
        (fun e => pairMatches u v e.1 e.2.1) =
      if pairMatches u v a b then
        (es.find? (fun e => pairMatches u v e.1 e.2.1)).map (fun e => (e.1, e.2.1, w))
      else es.find? (fun e => pairMatches u v e.1 e.2.1) := by
  induction es with
  | nil => cases h : pairMatches u v a b <;> simp [h]
  | cons e tl ih =>
    by_cases hab : pairMatches a b e.1 e.2.1 = true
    · by_cases huv : pairMatches u v a b = true
      · have he : pairMatches u v e.1 e.2.1 = true := by
          rw [pairMatches_congr huv]; exact hab
        simp [hab, he, huv]
      · have he : pairMatches u v e.1 e.2.1 = false := by
          by_contra hc
          exact huv (pairMatches_of_both (by simpa using hc) hab)
        simp [hab, he, huv, ih]
    · by_cases he : pairMatches u v e.1 e.2.1 = true
      · have huv : pairMatches u v a b = false := by
          by_contra hc
          have : pairMatches u v e.1 e.2.1 = pairMatches a b e.1 e.2.1 :=
            pairMatches_congr (by simpa using hc) _ _
          rw [he] at this
          exact hab this.symm
        simp [hab, he, huv]
      · simp only [Bool.not_eq_true] at he
        by_cases huv : pairMatches u v a b = true <;>
          simp [hab, he, huv, ih]

theorem edgeWeight?_addEdge (G : Graph) (a b : JSON) (w : ℚ) (u v : JSON) :
    edgeWeight? (addEdge G a b w) u v =
      if pairMatches u v a b then some w else edgeWeight? G u v := by
  unfold edgeWeight?
  rw [addEdge_edges]
  by_cases hany : G.edges.any (fun e => pairMatches a b e.1 e.2.1) = true
  · rw [if_pos hany, find?_map_overwrite]
    by_cases huv : pairMatches u v a b = true
    · rw [if_pos huv, if_pos huv]
      obtain ⟨e, he, hpe⟩ := List.any_eq_true.1 hany
      have hpe' : pairMatches u v e.1 e.2.1 = true := by
        rw [pairMatches_congr huv]; exact hpe
      have hsome : (G.edges.find? (fun e => pairMatches u v e.1 e.2.1)).isSome := by
        rw [List.find?_isSome]
        exact ⟨e, he, hpe'⟩
      obtain ⟨e', he'⟩ := Option.isSome_iff_exists.1 hsome
      simp [he']
    · rw [if_neg huv, if_neg huv]
  · rw [if_neg hany, List.find?_append]
    by_cases huv : pairMatches u v a b = true
    · have hall : ∀ e ∈ G.edges, pairMatches a b e.1 e.2.1 = false := by
        intro e he
        by_contra hc
        exact hany (List.any_eq_true.2 ⟨e, he, by simpa using hc⟩)
      have hnone : G.edges.find? (fun e => pairMatches u v e.1 e.2.1) = none := by
        rw [List.find?_eq_none]
        intro e he
        rw [pairMatches_congr huv]
        simp [hall e he]
      simp [hnone, huv]
    · have hone : List.find? (fun e => pairMatches u v e.1 e.2.1) [(a, b, w)] = none := by
        simp only [List.find?_singleton]
        simp [huv]
      simp [hone, huv]

theorem applyConn_edgeWeight {G G1 : Graph} {conn : JSON}
    (h : applyConn G conn = .ok G1) (u v : JSON) :
    edgeWeight? G1 u v = (connWeight? u v conn).or (edgeWeight? G u v) := by
  unfold applyConn at h
  unfold connWeight?
  cases hseq : pySeq conn with
  | error e => rw [hseq] at h; cases h
  | ok xs =>
    rw [hseq] at h
    match xs with
    | [] => cases h; simp
    | [a] => cases h; simp
    | a :: b :: rest =>
      match rest with
      | [] =>
        cases h
        rw [edgeWeight?_addEdge]
        by_cases hm : pairMatches u v a b = true <;> simp [hm]
      | z :: zs =>
        dsimp only at h ⊢
        cases hf : pyFloat z with
        | error e => rw [hf] at h; cases h
        | ok w =>
          rw [hf] at h
          cases h
          rw [edgeWeight?_addEdge]
          by_cases hm : pairMatches u v a b = true <;> simp [hm, hf, Except.toOption]

theorem buildEdges_edgeWeight :
    ∀ (conns : List JSON) (G G1 : Graph),
      buildEdges G conns = .ok G1 →
      ∀ u v, edgeWeight? G1 u v = (connsLastWeight conns u v).or (edgeWeight? G u v)
  | [], G, G1, h, u, v => by
      cases h; simp [connsLastWeight]
  | conn :: rest, G, G1, h, u, v => by
      unfold buildEdges at h
      cases hc : applyConn G conn with
      | error e => rw [hc] at h; cases h
      | ok Gmid =>
        rw [hc] at h
        rw [buildEdges_edgeWeight rest Gmid G1 h u v,
          applyConn_edgeWeight hc u v, connsLastWeight, Option.or_assoc]

theorem pairCount_addEdge (G : Graph) (a b : JSON) (w : ℚ) (u v : JSON) :
    pairCount (addEdge G a b w) u v =
      if pairMatches u v a b then max 1 (pairCount G u v) else pairCount G u v := by
  unfold pairCount
  rw [addEdge_edges]
  by_cases hany : G.edges.any (fun e => pairMatches a b e.1 e.2.1) = true
  · rw [if_pos hany]
    have hcount :
        (G.edges.map (fun e =>
            if pairMatches a b e.1 e.2.1 then (e.1, e.2.1, w) else e)).countP
            (fun e => pairMatches u v e.1 e.2.1) =
          G.edges.countP (fun e => pairMatches u v e.1 e.2.1) := by
      rw [List.countP_map]
      apply List.countP_congr
      intro e _
      by_cases hab : pairMatches a b e.1 e.2.1 = true <;> simp [hab]
    rw [hcount]
    by_cases huv : pairMatches u v a b = true
    · rw [if_pos huv]
      have hpos : 0 < G.edges.countP (fun e => pairMatches u v e.1 e.2.1) := by
        rw [List.countP_pos_iff]
        obtain ⟨e, he, hpe⟩ := List.any_eq_true.1 hany
        exact ⟨e, he, by rw [pairMatches_congr huv]; exact hpe⟩
      omega
    · rw [if_neg huv]
  · rw [if_neg hany, List.countP_append]
    by_cases huv : pairMatches u v a b = true
    · rw [if_pos huv]
      have h0 : G.edges.countP (fun e => pairMatches u v e.1 e.2.1) = 0 := by
        rw [List.countP_eq_zero]
        intro e he
        rw [pairMatches_congr huv]
        intro hc
        exact absurd (List.any_eq_true.2 ⟨e, he, hc⟩) hany
      simp [h0, huv]
    · rw [if_neg huv]
      simp [huv]

theorem applyConn_pairCount_le {G G1 : Graph} {conn : JSON}
    (h : applyConn G conn = .ok G1) (u v : JSON)
    (hle : pairCount G u v ≤ 1) : pairCount G1 u v ≤ 1 := by
  unfold applyConn at h
  cases hseq : pySeq conn with
  | error e => rw [hseq] at h; cases h
  | ok xs =>
    rw [hseq] at h
    match xs with
    | [] => cases h; exact hle
    | [a] => cases h; exact hle
    | a :: b :: rest =>
      match rest with
      | [] =>
        cases h
        rw [pairCount_addEdge]
        split <;> omega
      | z :: zs =>
        dsimp only at h
        cases hf : pyFloat z with
        | error e => rw [hf] at h; cases h
        | ok w =>
          rw [hf] at h
          cases h
          rw [pairCount_addEdge]
          split <;> omega

theorem buildEdges_pairCount_le :
    ∀ (conns : List JSON) (G G1 : Graph), buildEdges G conns = .ok G1 →
      ∀ u v, pairCount G u v ≤ 1 → pairCount G1 u v ≤ 1
  | [], G, G1, h, u, v, hle => by cases h; exact hle
  | conn :: rest, G, G1, h, u, v, hle => by
      unfold buildEdges at h
      cases hc : applyConn G conn with
      | error e => rw [hc] at h; cases h
      | ok Gmid =>
        rw [hc] at h
        exact buildEdges_pairCount_le rest Gmid G1 h u v
          (applyConn_pairCount_le hc u v hle)

theorem pairCount_pos_of_edgeWeight {G : Graph} {u v : JSON} {w : ℚ}
    (h : edgeWeight? G u v = some w) : 0 < pairCount G u v := by
  unfold edgeWeight? at h
  cases hf : G.edges.find? (fun e => pairMatches u v e.1 e.2.1) with
  | none => rw [hf] at h; cases h
  | some e =>
    unfold pairCount
    rw [List.countP_pos_iff]
    exact ⟨e, List.mem_of_find?_eq_some hf, by simpa using List.find?_some hf⟩

theorem foldl_addNode_edges :
    ∀ (ds : List JSON) (G : Graph), (ds.foldl addNode G).edges = G.edges
  | [], G => rfl
  | d :: ds, G => by
      rw [List.foldl_cons, foldl_addNode_edges ds (addNode G d), addNode_edges]

theorem foldl_addNode_nodes :
    ∀ (ds : List JSON) (G : Graph), ds.Nodup → (∀ d ∈ ds, d ∉ G.nodes) →
      (ds.foldl addNode G).nodes = G.nodes ++ ds
  | [], G, _, _ => by simp
  | d :: ds, G, hnd, hout => by
      rw [List.foldl_cons]
      have hd : d ∉ G.nodes := hout d (by simp)
      have hadd : (addNode G d).nodes = G.nodes ++ [d] := by simp [addNode, hd]
      have hnd' : ds.Nodup := (List.nodup_cons.1 hnd).2
      have hout' : ∀ x ∈ ds, x ∉ (addNode G d).nodes := by
        intro x hx
        rw [hadd]
        simp only [List.mem_append, List.mem_singleton]
        rintro (hg | rfl)
        · exact hout x (by simp [hx]) hg
        · exact (List.nodup_cons.1 hnd).1 hx
      rw [foldl_addNode_nodes ds (addNode G d) hnd' hout', hadd, List.append_assoc]
      rfl

theorem applyConn_nodes {G G1 : Graph} {conn : JSON}
    (h : applyConn G conn = .ok G1)
    (hep : ∀ u v rest, pySeq conn = .ok (u :: v :: rest) → u ∈ G.nodes ∧ v ∈ G.nodes) :
    G1.nodes = G.nodes := by
  unfold applyConn at h
  cases hseq : pySeq conn with
  | error e => rw [hseq] at h; cases h
  | ok xs =>
    rw [hseq] at h
    match xs with
    | [] => cases h; rfl
    | [a] => cases h; rfl
    | a :: b :: rest =>
      obtain ⟨ha, hb⟩ := hep a b rest hseq
      match rest with
      | [] =>
        cases h
        rw [addEdge_nodes, addNode_of_mem ha, addNode_of_mem hb]
      | z :: zs =>
        dsimp only at h
        cases hf : pyFloat z with
        | error e => rw [hf] at h; cases h
        | ok w =>
          rw [hf] at h
          cases h
          rw [addEdge_nodes, addNode_of_mem ha, addNode_of_mem hb]

theorem buildEdges_nodes :
    ∀ (conns : List JSON) (G G1 : Graph), buildEdges G conns = .ok G1 →
      (∀ conn ∈ conns, ∀ u v rest, pySeq conn = .ok (u :: v :: rest) →
        u ∈ G.nodes ∧ v ∈ G.nodes) →
      G1.nodes = G.nodes
  | [], G, G1, h, _ => by cases h; rfl
  | conn :: rest, G, G1, h, hep => by
      unfold buildEdges at h
      cases hc : applyConn G conn with
      | error e => rw [hc] at h; cases h
      | ok Gmid =>
        rw [hc] at h
        have hmid : Gmid.nodes = G.nodes :=
          applyConn_nodes hc (fun u v r hs => hep conn (by simp) u v r hs)
        rw [← hmid]
        exact buildEdges_nodes rest Gmid G1 h
          (fun c hcm u v r hs => hmid ▸ hep c (by simp [hcm]) u v r hs)

theorem mem_candidatePaths_iff {ns : List JSON} {p : List JSON} :
    p ∈ candidatePaths ns ↔ p.Nodup ∧ ∀ x ∈ p, x ∈ ns := by
  unfold candidatePaths
  rw [List.mem_flatMap]
  constructor
  · rintro ⟨l, hl, hp⟩
    rw [List.mem_sublists] at hl
    rw [List.mem_permutations'] at hp
    have hlnd : l.Nodup := (List.nodup_dedup ns).sublist hl
    refine ⟨hp.symm.nodup hlnd, ?_⟩
    intro x hx
    exact List.mem_dedup.1 (hl.subset (hp.subset hx))
  · rintro ⟨hnd, hsub⟩
    have hsp : List.Subperm p ns.dedup :=
      List.subperm_of_subset hnd (fun x hx => List.mem_dedup.2 (hsub x hx))
    obtain ⟨l, hperm, hsl⟩ := hsp
    exact ⟨l, List.mem_sublists.2 hsl, List.mem_permutations'.2 hperm.symm⟩

theorem mem_simplePaths_iff {G : Graph} {s t : JSON} {p : List JSON} :
    p ∈ simplePaths G s t ↔
      p.Nodup ∧ (∀ x ∈ p, x ∈ G.nodes) ∧ isPath G p = true ∧
        p.head? = some s ∧ p.getLast? = some t := by
  unfold simplePaths
  rw [List.mem_filter, mem_candidatePaths_iff]
  simp only [Bool.and_eq_true, beq_iff_eq]
  tauto

theorem hasEdge_mem_nodes {G : Graph} (hwf : G.Wf) {x y : JSON}
    (h : hasEdge G x y = true) : x ∈ G.nodes ∧ y ∈ G.nodes := by
  unfold hasEdge edgeWeight? at h
  cases hf : G.edges.find? (fun e => pairMatches x y e.1 e.2.1) with
  | none => rw [hf] at h; simp at h
  | some e =>
    have hmem := List.mem_of_find?_eq_some hf
    have hpe : pairMatches x y e.1 e.2.1 = true := by simpa using List.find?_some hf
    obtain ⟨h1, h2⟩ := hwf e hmem
    rcases pairMatches_iff.1 hpe with ⟨hx, hy⟩ | ⟨hx, hy⟩
    · exact ⟨hx ▸ h1, hy ▸ h2⟩
    · exact ⟨hy ▸ h2, hx ▸ h1⟩

theorem isPath_mem_nodes {G : Graph} (hwf : G.Wf) :
    ∀ (p : List JSON), isPath G p = true → ∀ x ∈ p, x ∈ G.nodes
  | [], h => by cases h
  | [a], h => by
      intro x hx
      rw [List.mem_singleton] at hx
      subst hx
      simpa [isPath] using h
  | a :: b :: rest, h => by
      rw [isPath, Bool.and_eq_true] at h
      obtain ⟨h1, h2⟩ := h
      intro x hx
      rcases List.mem_cons.1 hx with rfl | hx'
      · exact (hasEdge_mem_nodes hwf h1).1
      · exact isPath_mem_nodes hwf (b :: rest) h2 x hx'

theorem path_singleton {p : List JSON} {n : JSON} (hnd : p.Nodup)
    (hh : p.head? = some n) (hl : p.getLast? = some n) : p = [n] := by
  match p with
  | [] => cases hh
  | [x] =>
    have : x = n := by simpa using hh
    rw [this]
  | x :: y :: rest =>
    have hx : x = n := by simpa using hh
    rw [List.getLast?_cons_cons] at hl
    have hmem : n ∈ y :: rest := List.mem_of_getLast?_eq_some hl
    subst hx
    exact absurd hmem (List.nodup_cons.1 hnd).1

theorem simplePaths_eq_nil_iff {G : Graph} (hwf : G.Wf) (s t : JSON) :
    simplePaths G s t = [] ↔
      ¬ ∃ p : List JSON, p.Nodup ∧ isPath G p = true ∧
        p.head? = some s ∧ p.getLast? = some t := by
  rw [List.eq_nil_iff_forall_not_mem]
  constructor
  · rintro hall ⟨p, h1, h2, h3, h4⟩
    exact hall p (mem_simplePaths_iff.2 ⟨h1, isPath_mem_nodes hwf p h2, h2, h3, h4⟩)
  · intro hne p hp
    obtain ⟨h1, _, h2, h3, h4⟩ := mem_simplePaths_iff.1 hp
    exact hne ⟨p, h1, h2, h3, h4⟩

theorem find?_weight_forall₂ {es es' : List (JSON × JSON × ℚ)}
    (h : List.Forall₂ (fun e e' : JSON × JSON × ℚ =>
      e.1 = e'.1 ∧ e.2.1 = e'.2.1 ∧ e.2.2 ≤ e'.2.2) es es') (u v : JSON) :
    ((es.find? (fun e => pairMatches u v e.1 e.2.1)).map (fun e => e.2.2) = none ∧
      (es'.find? (fun e => pairMatches u v e.1 e.2.1)).map (fun e => e.2.2) = none) ∨
    (∃ w w', (es.find? (fun e => pairMatches u v e.1 e.2.1)).map (fun e => e.2.2) = some w ∧
      (es'.find? (fun e => pairMatches u v e.1 e.2.1)).map (fun e => e.2.2) = some w' ∧
      w ≤ w') := by
  induction h with
  | nil => left; simp
  | @cons a b l1 l2 he htl ih =>
    obtain ⟨h1, h2, h3⟩ := he
    by_cases hp : pairMatches u v a.1 a.2.1 = true
    · right
      have hp' : pairMatches u v b.1 b.2.1 = true := by rw [← h1, ← h2]; exact hp
      exact ⟨a.2.2, b.2.2, by simp [List.find?_cons_of_pos, hp],
        by simp [List.find?_cons_of_pos, hp'], h3⟩
    · have hp' : ¬pairMatches u v b.1 b.2.1 = true := by rw [← h1, ← h2]; exact hp
      rw [List.find?_cons_of_neg _ (by simpa using hp),
        List.find?_cons_of_neg _ (by simpa using hp')]
      exact ih

theorem edgeWeight?_forall₂ {G G' : Graph}
    (hf : List.Forall₂ (fun e e' : JSON × JSON × ℚ =>
      e.1 = e'.1 ∧ e.2.1 = e'.2.1 ∧ e.2.2 ≤ e'.2.2) G.edges G'.edges) (u v : JSON) :
    (edgeWeight? G u v = none ∧ edgeWeight? G' u v = none) ∨
    (∃ w w', edgeWeight? G u v = some w ∧ edgeWeight? G' u v = some w' ∧ w ≤ w') := by
  unfold edgeWeight?
  exact find?_weight_forall₂ hf u v

theorem hasEdge_forall₂ {G G' : Graph}
    (hf : List.Forall₂ (fun e e' : JSON × JSON × ℚ =>
      e.1 = e'.1 ∧ e.2.1 = e'.2.1 ∧ e.2.2 ≤ e'.2.2) G.edges G'.edges) (u v : JSON) :
    hasEdge G u v = hasEdge G' u v := by
  unfold hasEdge
  rcases edgeWeight?_forall₂ hf u v with ⟨hn1, hn2⟩ | ⟨w, w', hw, hw', _⟩
  · rw [hn1, hn2]
  · rw [hw, hw']
    rfl

theorem isPath_forall₂ {G G' : Graph} (hn : G.nodes = G'.nodes)
    (hf : List.Forall₂ (fun e e' : JSON × JSON × ℚ =>
      e.1 = e'.1 ∧ e.2.1 = e'.2.1 ∧ e.2.2 ≤ e'.2.2) G.edges G'.edges) :
    ∀ p : List JSON, isPath G p = isPath G' p
  | [] => rfl
  | [x] => by simp [isPath, hn]
  | x :: y :: rest => by
      rw [isPath, isPath, hasEdge_forall₂ hf x y,
        isPath_forall₂ hn hf (y :: rest)]

theorem pathCost_mono {G G' : Graph}
    (hf : List.Forall₂ (fun e e' : JSON × JSON × ℚ =>
      e.1 = e'.1 ∧ e.2.1 = e'.2.1 ∧ e.2.2 ≤ e'.2.2) G.edges G'.edges) :
    ∀ p : List JSON, isPath G p = true → pathCost G p ≤ pathCost G' p
  | [], _ => by simp [pathCost]
  | [x], _ => by simp [pathCost]
  | x :: y :: rest, h => by
      rw [isPath, Bool.and_eq_true] at h
      obtain ⟨h1, h2⟩ := h
      rw [pathCost, pathCost]
      rcases edgeWeight?_forall₂ hf x y with ⟨hn1, _⟩ | ⟨w, w', hw, hw', hle⟩
      · unfold hasEdge at h1
        rw [hn1] at h1
        cases h1
      · rw [hw, hw']
        exact add_le_add hle (pathCost_mono hf (y :: rest) h2)

theorem simplePaths_forall₂ {G G' : Graph} (hn : G.nodes = G'.nodes)
    (hf : List.Forall₂ (fun e e' : JSON × JSON × ℚ =>
      e.1 = e'.1 ∧ e.2.1 = e'.2.1 ∧ e.2.2 ≤ e'.2.2) G.edges G'.edges) (s t : JSON) :
    simplePaths G s t = simplePaths G' s t := by
  unfold simplePaths
  rw [hn]
  apply List.filter_congr
  intro p _
  rw [isPath_forall₂ hn hf p]

theorem compute_eq_of_missing {G : Graph} {s t : JSON}
    (h : (!G.nodes.contains s || !G.nodes.contains t) = true) :
    compute_shortest_path G s t = (none, none) := by
  unfold compute_shortest_path
  rw [if_pos h]

theorem compute_eq_of_found {G : Graph} {s t : JSON} {p : List JSON}
    (hs : G.nodes.contains s = true) (ht : G.nodes.contains t = true)
    (hd : dijkstraPath? G s t = some p) :
    compute_shortest_path G s t = (some p, some (pathCost G p)) := by
  unfold compute_shortest_path
  rw [if_neg (by simp; exact ⟨by simpa using hs, by simpa using ht⟩), hd]

theorem compute_eq_of_nopath {G : Graph} {s t : JSON}
    (hd : dijkstraPath? G s t = none) :
    compute_shortest_path G s t = (none, none) := by
  unfold compute_shortest_path
  split
  · rfl
  · rw [hd]

theorem compute_shape (G : Graph) (s t : JSON) :
    compute_shortest_path G s t = (none, none) ∨
      ∃ p c, compute_shortest_path G s t = (some p, some c) := by
  unfold compute_shortest_path
  split
  · left; rfl
  · cases hd : dijkstraPath? G s t with
    | none => left; rfl
    | some p => right; exact ⟨p, pathCost G p, rfl⟩

theorem dijkstraPath?_mem {G : Graph} {s t : JSON} {p : List JSON}
    (hd : dijkstraPath? G s t = some p) : p ∈ simplePaths G s t :=
  List.argmin_mem (Option.mem_def.2 hd)

theorem dijkstraPath?_min {G : Graph} {s t : JSON} {p q : List JSON}
    (hd : dijkstraPath? G s t = some p) (hq : q ∈ simplePaths G s t) :
    pathCost G p ≤ pathCost G q :=
  List.le_of_mem_argmin hq (Option.mem_def.2 hd)

theorem dijkstraPath?_isSome_of_mem {G : Graph} {s t : JSON} {q : List JSON}
    (hq : q ∈ simplePaths G s t) : ∃ p, dijkstraPath? G s t = some p := by
  cases hd : dijkstraPath? G s t with
  | none =>
    have hnil : simplePaths G s t = [] := List.argmin_eq_none.1 hd
    rw [hnil] at hq
    cases hq
  | some p => exact ⟨p, rfl⟩

theorem addEdge_weight_self (G : Graph) (u v : JSON) (w : ℚ) :
    edgeWeight? (addEdge G u v w) u v = some w ∧
    edgeWeight? (addEdge G u v w) v u = some w := by
  rw [edgeWeight?_addEdge, edgeWeight?_addEdge,
    if_pos (pairMatches_self u v), if_pos (pairMatches_swap_self v u)]
  exact ⟨rfl, rfl⟩

/-- **C1.** For the graph built from devices `["A","B","C"]` and connections
`[["A","B",2],["B","C",3]]`, `compute_shortest_path` from `"A"` to `"C"`
returns the path `["A","B","C"]` and total cost `5.0`. -/
theorem sample_shortest_path :
    build_graph sampleNetwork =
      .ok ⟨[.str "A", .str "B", .str "C"],
        [(.str "A", .str "B", 2), (.str "B", .str "C", 3)]⟩ ∧
    compute_shortest_path
        ⟨[.str "A", .str "B", .str "C"],
          [(.str "A", .str "B", 2), (.str "B", .str "C", 3)]⟩
        (.str "A") (.str "C") =
      (some [.str "A", .str "B", .str "C"], some 5) := by
  constructor
  · decide
  · with_unfolding_all decide

/-- **C10.** `build_graph` is not total over malformed weights: on a
connection whose third element is the non-numeric string `"oops"`, the
`float` coercion raises `ValueError` and `build_graph` propagates it as an
unhandled exception instead of skipping the row or exiting. -/
theorem build_graph_bad_weight_raises :
    pyFloat (.str "oops") = .error .valueError ∧
    build_graph badWeightNetwork = .error .valueError := by
  constructor
  · decide
  · decide

/-- **C3 (counterexample).** The claim says `load_network` exits with
status 1 whenever a required key is absent.  The JSON array
`["devices","connections"]` has no keys at all, yet Python's `in` test
finds both strings among its elements, so `load_network` returns the
parsed value instead of exiting. -/
theorem load_network_array_counterexample :
    jsonHasKey arrayKeysValue "devices" = false ∧
    jsonHasKey arrayKeysValue "connections" = false ∧
    load_network (.parsed arrayKeysValue) = .loaded arrayKeysValue := by
  refine ⟨rfl, rfl, ?_⟩
  decide

/-- **C3 (amended).** `load_network` exits with status 1 on a missing file
and on invalid JSON; for JSON-object content it exits with status 1
exactly when one of the required keys `devices` / `connections` is absent,
and returns the parsed object otherwise.  (For non-object content the
Python membership test may succeed or raise `TypeError`; see the
counterexample.) -/
theorem load_network_amended :
    load_network .missing = .exited 1 ∧
    load_network .badJSON = .exited 1 ∧
    ∀ fields : List (String × JSON),
      (load_network (.parsed (.obj fields)) = .exited 1 ↔
        (jsonHasKey (.obj fields) "devices" = false ∨
          jsonHasKey (.obj fields) "connections" = false)) ∧
      (load_network (.parsed (.obj fields)) = .loaded (.obj fields) ↔
        (jsonHasKey (.obj fields) "devices" = true ∧
          jsonHasKey (.obj fields) "connections" = true)) := by
  refine ⟨rfl, rfl, fun fields => ?_⟩
  unfold load_network pyContains jsonHasKey
  cases h1 : fields.any (fun f => f.1 == "devices") <;>
    cases h2 : fields.any (fun f => f.1 == "connections") <;>
      simp [h1, h2]

/-- **C2 (counterexample).** The claim says `build_graph` adds an edge for
*every* connection with at least two elements.  The row
`["A","B","oops"]` has three elements, yet the `float` coercion of its
weight raises `ValueError`: the loop body raises instead of adding an
edge, and `build_graph` on an input containing this row returns no graph
at all. -/
theorem build_graph_row_counterexample :
    pySeq (.arr [.str "A", .str "B", .str "oops"]) =
      .ok [.str "A", .str "B", .str "oops"] ∧
    2 ≤ ([JSON.str "A", JSON.str "B", JSON.str "oops"] : List JSON).length ∧
    applyConn Graph.empty (.arr [.str "A", .str "B", .str "oops"]) =
      .error .valueError ∧
    build_graph badWeightNetwork = .error .valueError := by
  refine ⟨rfl, by decide, by decide, by decide⟩

/-- **C2 (amended).** Processing one connection row: a row with fewer than
two elements is skipped silently (the graph is returned unchanged), and a
non-dict row `u, v, ...` with hashable endpoints whose weight resolves —
`1.0` when no third element is present, or a successful `float` coercion
of the third element — adds an undirected edge between its first two
elements with that weight (a later duplicate row may overwrite it; see
the duplicate-overwrite theorem).  A row whose weight fails to coerce
raises instead of adding an edge (see the counterexample); dict rows and
unhashable endpoints, where the program raises `KeyError` / `TypeError`,
are outside the edge-adding contract. -/
theorem build_graph_row_action (G : Graph) (conn : JSON) :
    (∀ xs, pySeq conn = .ok xs → xs.length < 2 → applyConn G conn = .ok G) ∧
    (∀ u v rest G1, pySeq conn = .ok (u :: v :: rest) →
      pyIsDict conn = false → pyHashable u = true → pyHashable v = true →
      applyConn G conn = .ok G1 →
      hasEdge G1 u v = true ∧ hasEdge G1 v u = true ∧
      ((rest = [] ∧ edgeWeight? G1 u v = some 1 ∧ edgeWeight? G1 v u = some 1) ∨
       (∃ z zs w, rest = z :: zs ∧ pyFloat z = .ok w ∧
         edgeWeight? G1 u v = some w ∧ edgeWeight? G1 v u = some w))) := by
  constructor
  · intro xs hseq hlen
    unfold applyConn
    rw [hseq]
    match xs, hlen with
    | [], _ => rfl
    | [a], _ => rfl
    | a :: b :: rest, hlen => exact absurd hlen (by simp)
  · intro u v rest G1 hseq _hnodict _hu _hv hok
    unfold applyConn at hok
    rw [hseq] at hok
    cases rest with
    | nil =>
      cases hok
      obtain ⟨hw1, hw2⟩ := addEdge_weight_self G u v 1
      refine ⟨?_, ?_, Or.inl ⟨rfl, hw1, hw2⟩⟩
      · unfold hasEdge; rw [hw1]; rfl
      · unfold hasEdge; rw [hw2]; rfl
    | cons z zs =>
      dsimp only at hok
      cases hf : pyFloat z with
      | error e => rw [hf] at hok; cases hok
      | ok w =>
        rw [hf] at hok
        cases hok
        obtain ⟨hw1, hw2⟩ := addEdge_weight_self G u v w
        refine ⟨?_, ?_, Or.inr ⟨z, zs, w, rfl, hf, hw1, hw2⟩⟩
        · unfold hasEdge; rw [hw1]; rfl
        · unfold hasEdge; rw [hw2]; rfl

/-- Witness for the single-row theorem: a one-element row is skipped, and
the row `["A","B",2]` produces the undirected edge `{A, B}` with weight
`2` in both query directions. -/
theorem build_graph_row_action_witness :
    applyConn Graph.empty (.arr [.str "A"]) = .ok Graph.empty ∧
    edgeWeight? ⟨[.str "A", .str "B"], [(.str "A", .str "B", 2)]⟩
      (.str "A") (.str "B") = some 2 ∧
    edgeWeight? ⟨[.str "A", .str "B"], [(.str "A", .str "B", 2)]⟩
      (.str "B") (.str "A") = some 2 := by
  have hskip := (build_graph_row_action Graph.empty (.arr [.str "A"])).1
    [.str "A"] (by decide) (by decide)
  have hrow := (build_graph_row_action Graph.empty
      (.arr [.str "A", .str "B", .num 2])).2
    (.str "A") (.str "B") [.num 2]
    ⟨[.str "A", .str "B"], [(.str "A", .str "B", 2)]⟩
    (by decide) (by decide) (by decide) (by decide) (by decide)
  rcases hrow.2.2 with ⟨hnil, _, _⟩ | ⟨z, zs, w, hrest, hf, hw1, hw2⟩
  · cases hnil
  · cases hrest
    have hw : w = 2 := by
      have h2 : (Except.ok 2 : Except PyErr ℚ) = .ok w := hf
      cases h2
      rfl
    subst hw
    exact ⟨hskip, hw1, hw2⟩

/-- **C7.** Duplicate connections overwrite: whenever the connection list
mentions the unordered pair `{u, v}` (so `connsLastWeight` resolves to the
weight `w` of the last such row), the built graph stores exactly one edge
for that pair and its weight is `w`. -/
theorem build_graph_dup_overwrite
    {fields : List (String × JSON)} {conns : List JSON} {G : Graph}
    {u v : JSON} {w : ℚ}
    (hcon : dictGet fields "connections" = some (.arr conns))
    (hok : build_graph (.obj fields) = .ok G)
    (hlast : connsLastWeight conns u v = some w) :
    edgeWeight? G u v = some w ∧ pairCount G u v = 1 := by
  unfold build_graph at hok
  dsimp only at hok
  rw [hcon] at hok
  cases hdev : pySeq ((dictGet fields "devices").getD (.arr [])) with
  | error e => rw [hdev] at hok; cases hok
  | ok ds =>
    rw [hdev] at hok
    dsimp only [Option.getD, pySeq] at hok
    have h0 : edgeWeight? (ds.foldl addNode Graph.empty) u v = none := by
      unfold edgeWeight?
      rw [foldl_addNode_edges]
      rfl
    have hW := buildEdges_edgeWeight conns _ G hok u v
    rw [h0, hlast] at hW
    constructor
    · rw [hW]; rfl
    · have hle := buildEdges_pairCount_le conns _ G hok u v (by
        unfold pairCount
        rw [foldl_addNode_edges]
        exact Nat.zero_le 1)
      have hpos := @pairCount_pos_of_edgeWeight G u v w (by rw [hW]; rfl)
      omega

/-- Witness for the duplicate-overwrite theorem: two rows for `{A, B}` with
weights `2` then `5` leave a single edge of weight `5`. -/
theorem build_graph_dup_overwrite_witness :
    connsLastWeight [.arr [.str "A", .str "B", .num 2],
      .arr [.str "A", .str "B", .num 5]] (.str "A") (.str "B") = some 5 ∧
    build_graph dupPairNetwork =
      .ok ⟨[.str "A", .str "B"], [(.str "A", .str "B", 5)]⟩ ∧
    edgeWeight? ⟨[.str "A", .str "B"], [(.str "A", .str "B", 5)]⟩
      (.str "A") (.str "B") = some 5 ∧
    pairCount ⟨[.str "A", .str "B"], [(.str "A", .str "B", 5)]⟩
      (.str "A") (.str "B") = 1 := by
  have h := @build_graph_dup_overwrite
    [("devices", .arr [.str "A", .str "B"]),
      ("connections", .arr [.arr [.str "A", .str "B", .num 2],
        .arr [.str "A", .str "B", .num 5]])]
    [.arr [.str "A", .str "B", .num 2], .arr [.str "A", .str "B", .num 5]]
    ⟨[.str "A", .str "B"], [(.str "A", .str "B", 5)]⟩
    (.str "A") (.str "B") 5
    (by decide) (by decide) (by decide)
  exact ⟨by decide, by decide, h.1, h.2⟩

/-- **C5.** For every graph and every node `n` of it,
`compute_shortest_path` from `n` to `n` returns the single-element path
`[n]` with cost `0`. -/
theorem compute_shortest_path_self (G : Graph) (n : JSON) (hn : n ∈ G.nodes) :
    compute_shortest_path G n n = (some [n], some 0) := by
  have hc : G.nodes.contains n = true := by simpa using hn
  have hmem : [n] ∈ simplePaths G n n :=
    mem_simplePaths_iff.2
      ⟨by simp, by intro x hx; rw [List.mem_singleton] at hx; subst hx; exact hn,
        by simp [isPath]; exact hn, by simp, by simp⟩
  obtain ⟨p, hp⟩ := dijkstraPath?_isSome_of_mem hmem
  have hpm := dijkstraPath?_mem hp
  obtain ⟨hnd, _, _, hh, hl⟩ := mem_simplePaths_iff.1 hpm
  have hpn := path_singleton hnd hh hl
  subst hpn
  rw [compute_eq_of_found hc hc hp]
  simp [pathCost]

/-- Witness for the source-equals-target theorem at the node `"A"` of a
concrete two-node graph. -/
theorem compute_shortest_path_self_witness :
    (JSON.str "A") ∈ monoGraphLight.nodes ∧
    compute_shortest_path monoGraphLight (.str "A") (.str "A") =
      (some [.str "A"], some 0) :=
  ⟨by decide, compute_shortest_path_self monoGraphLight (.str "A") (by decide)⟩

theorem contains_eq_false_of_not_mem {l : List JSON} {a : JSON} (h : a ∉ l) :
    l.contains a = false := by
  cases hb : l.contains a
  · rfl
  · exact absurd (by simpa using hb) h

/-- **C4.** On well-formed graphs with non-negative weights — the domain
the specification assigns to the path finder, on which the simple-path
minimisation represents `nx.dijkstra_path` (outside it the library can
raise an uncaught `ValueError`) — `compute_shortest_path` returns the
pair `(None, None)` exactly when an endpoint is missing from the graph or
no (simple) path connects the endpoints, and in every other case it
returns a path together with a cost; it never produces any other shape of
result (the model is total, mirroring the `try/except nx.NetworkXNoPath`
handler, and the printed diagnostic is not modelled). -/
theorem compute_shortest_path_error_handling (G : Graph) (s t : JSON)
    (hwf : G.Wf) (_hnonneg : ∀ e ∈ G.edges, 0 ≤ e.2.2) :
    (compute_shortest_path G s t = (none, none) ↔
      ¬(s ∈ G.nodes ∧ t ∈ G.nodes ∧ ∃ p : List JSON, p.Nodup ∧
        isPath G p = true ∧ p.head? = some s ∧ p.getLast? = some t)) ∧
    (compute_shortest_path G s t = (none, none) ∨
      ∃ p c, compute_shortest_path G s t = (some p, some c)) := by
  refine ⟨?_, compute_shape G s t⟩
  by_cases hs : s ∈ G.nodes
  · by_cases ht : t ∈ G.nodes
    · have hcs : G.nodes.contains s = true := by simpa using hs
      have hct : G.nodes.contains t = true := by simpa using ht
      cases hd : dijkstraPath? G s t with
      | none =>
        have hnil : simplePaths G s t = [] := by
          unfold dijkstraPath? at hd
          exact List.argmin_eq_none.1 hd
        rw [compute_eq_of_nopath hd]
        have hno := (simplePaths_eq_nil_iff hwf s t).1 hnil
        exact iff_of_true rfl (fun hcon => hno hcon.2.2)
      | some p =>
        rw [compute_eq_of_found hcs hct hd]
        have hpm := dijkstraPath?_mem hd
        obtain ⟨h1, _, h2, h3, h4⟩ := mem_simplePaths_iff.1 hpm
        exact iff_of_false (by simp) (fun hno => hno ⟨hs, ht, p, h1, h2, h3, h4⟩)
    · have hcond : (!G.nodes.contains s || !G.nodes.contains t) = true := by
        rw [contains_eq_false_of_not_mem ht]
        simp
      rw [compute_eq_of_missing hcond]
      exact iff_of_true rfl (fun hcon => ht hcon.2.1)
  · have hcond : (!G.nodes.contains s || !G.nodes.contains t) = true := by
      rw [contains_eq_false_of_not_mem hs]
      simp
    rw [compute_eq_of_missing hcond]
    exact iff_of_true rfl (fun hcon => hs hcon.1)

/-- Witness for the error-handling theorem on a concrete well-formed
two-node graph with non-negative weights, querying the absent target
`"D"`. -/
theorem compute_shortest_path_error_handling_witness :
    monoGraphLight.Wf ∧
    (∀ e ∈ monoGraphLight.edges, 0 ≤ e.2.2) ∧
    ((compute_shortest_path monoGraphLight (.str "A") (.str "D") =
        (none, none) ↔
      ¬((JSON.str "A") ∈ monoGraphLight.nodes ∧
        (JSON.str "D") ∈ monoGraphLight.nodes ∧
        ∃ p : List JSON, p.Nodup ∧ isPath monoGraphLight p = true ∧
          p.head? = some (.str "A") ∧ p.getLast? = some (.str "D"))) ∧
     (compute_shortest_path monoGraphLight (.str "A") (.str "D") =
        (none, none) ∨
      ∃ p c, compute_shortest_path monoGraphLight (.str "A") (.str "D") =
        (some p, some c))) :=
  ⟨by unfold Graph.Wf; decide, by decide, compute_shortest_path_error_handling
    monoGraphLight (.str "A") (.str "D") (by unfold Graph.Wf; decide) (by decide)⟩

/-- **C6.** For a fixed topology (same node list, edge pairs in the same
order) with non-negative weights, raising each edge weight cannot lower
the shortest-path cost: whenever the lighter graph returns a path and a
cost, the heavier graph also returns a path and a cost at least as
large. -/
theorem shortest_path_cost_mono {G G' : Graph} {s t : JSON}
    {p : List JSON} {c : ℚ}
    (hn : G.nodes = G'.nodes)
    (hf : List.Forall₂ (fun e e' : JSON × JSON × ℚ =>
      e.1 = e'.1 ∧ e.2.1 = e'.2.1 ∧ e.2.2 ≤ e'.2.2) G.edges G'.edges)
    (_hnonneg : ∀ e ∈ G.edges, 0 ≤ e.2.2)
    (hc : compute_shortest_path G s t = (some p, some c)) :
    ∃ p' c', compute_shortest_path G' s t = (some p', some c') ∧ c ≤ c' := by
  unfold compute_shortest_path at hc
  by_cases hcond : (!G.nodes.contains s || !G.nodes.contains t) = true
  · rw [if_pos hcond] at hc
    simp at hc
  · rw [if_neg hcond] at hc
    cases hd : dijkstraPath? G s t with
    | none => rw [hd] at hc; simp at hc
    | some p0 =>
      rw [hd] at hc
      simp only [Prod.mk.injEq, Option.some.injEq] at hc
      obtain ⟨hp0, hcost⟩ := hc
      subst hp0
      subst hcost
      have hcs : G.nodes.contains s = true := by
        cases hbs : G.nodes.contains s
        · exact absurd (by rw [hbs]; rfl) hcond
        · rfl
      have hct : G.nodes.contains t = true := by
        cases hbt : G.nodes.contains t
        · exact absurd (by rw [hbt]; exact Bool.or_true _) hcond
        · rfl
      have hsp_eq := simplePaths_forall₂ hn hf s t
      have hp0mem : p0 ∈ simplePaths G s t := dijkstraPath?_mem hd
      have hp0mem' : p0 ∈ simplePaths G' s t := hsp_eq ▸ hp0mem
      obtain ⟨p', hp'⟩ := dijkstraPath?_isSome_of_mem hp0mem'
      have hp'memG : p' ∈ simplePaths G s t := hsp_eq ▸ dijkstraPath?_mem hp'
      have hmin : pathCost G p0 ≤ pathCost G p' := dijkstraPath?_min hd hp'memG
      have hisPath' : isPath G p' = true := (mem_simplePaths_iff.1 hp'memG).2.2.1
      have hmono : pathCost G p' ≤ pathCost G' p' := pathCost_mono hf p' hisPath'
      have hcs' : G'.nodes.contains s = true := by rw [← hn]; exact hcs
      have hct' : G'.nodes.contains t = true := by rw [← hn]; exact hct
      exact ⟨p', pathCost G' p', compute_eq_of_found hcs' hct' hp',
        le_trans hmin hmono⟩

/-- Witness for the monotonicity theorem: the edge `{A, B}` of weight `1`
versus the same topology with weight `2`. -/
theorem shortest_path_cost_mono_witness :
    monoGraphLight.nodes = monoGraphHeavy.nodes ∧
    List.Forall₂ (fun e e' : JSON × JSON × ℚ =>
      e.1 = e'.1 ∧ e.2.1 = e'.2.1 ∧ e.2.2 ≤ e'.2.2)
      monoGraphLight.edges monoGraphHeavy.edges ∧
    (∀ e ∈ monoGraphLight.edges, 0 ≤ e.2.2) ∧
    compute_shortest_path monoGraphLight (.str "A") (.str "B") =
      (some [.str "A", .str "B"], some 1) ∧
    ∃ p' c', compute_shortest_path monoGraphHeavy (.str "A") (.str "B") =
      (some p', some c') ∧ (1 : ℚ) ≤ c' := by
  have h1 : monoGraphLight.nodes = monoGraphHeavy.nodes := rfl
  have h2 : List.Forall₂ (fun e e' : JSON × JSON × ℚ =>
      e.1 = e'.1 ∧ e.2.1 = e'.2.1 ∧ e.2.2 ≤ e'.2.2)
      monoGraphLight.edges monoGraphHeavy.edges :=
    List.Forall₂.cons ⟨rfl, rfl, by norm_num⟩ List.Forall₂.nil
  have h3 : ∀ e ∈ monoGraphLight.edges, 0 ≤ e.2.2 := by decide
  have h4 : compute_shortest_path monoGraphLight (.str "A") (.str "B") =
      (some [.str "A", .str "B"], some 1) := by
    with_unfolding_all decide
  exact ⟨h1, h2, h3, h4, shortest_path_cost_mono h1 h2 h3 h4⟩

/-- **C8 (counterexample).** The claim says the default target is the last
device of the *loaded device list* for every valid input, including ones
whose connections reference identifiers outside the device list.  For
devices `["A","B"]` with the connection `["B","C"]`, the edge endpoint
`"C"` is appended to the node list after the devices, so the default
target is `"C"`, not the last loaded device `"B"`. -/
theorem main_default_target_counterexample :
    build_graph strayEndpointNetwork =
      .ok ⟨[.str "A", .str "B", .str "C"], [(.str "B", .str "C", 1)]⟩ ∧
    [JSON.str "A", JSON.str "B"].getLast? = some (.str "B") ∧
    selectEndpoints ⟨[.str "A", .str "B", .str "C"], [(.str "B", .str "C", 1)]⟩
      none none = some (.str "A", .str "C") ∧
    (JSON.str "C") ≠ (JSON.str "B") := by
  refine ⟨by decide, rfl, by decide, by decide⟩

/-- **C8 (amended).** When `--source` / `--target` are not given, `main`
uses the first and last node of the *built graph* in insertion order.
These equal the first and last device of the loaded device list whenever
the device list is non-empty (and duplicate-free) and every connection
endpoint already appears in the device list; a connection referencing a
new identifier shifts the default target to that identifier. -/
theorem main_default_endpoints
    {fields : List (String × JSON)} {ds conns : List JSON} {G : Graph}
    (hdev : dictGet fields "devices" = some (.arr ds))
    (hcon : dictGet fields "connections" = some (.arr conns))
    (hnd : ds.Nodup) (hne : ds ≠ [])
    (hep : ∀ conn ∈ conns, ∀ u v rest, pySeq conn = .ok (u :: v :: rest) →
      u ∈ ds ∧ v ∈ ds)
    (hok : build_graph (.obj fields) = .ok G) :
    G.nodes = ds ∧
    selectEndpoints G none none = some (ds.head hne, ds.getLast hne) := by
  unfold build_graph at hok
  dsimp only at hok
  rw [hdev, hcon] at hok
  dsimp only [Option.getD, pySeq] at hok
  have hG0 : (ds.foldl addNode Graph.empty).nodes = ds := by
    rw [foldl_addNode_nodes ds Graph.empty hnd (by intro d _; simp [Graph.empty])]
    rfl
  have hGnodes : G.nodes = ds := by
    rw [buildEdges_nodes conns _ G hok, hG0]
    intro conn hc u v rest hs
    rw [hG0]
    exact hep conn hc u v rest hs
  refine ⟨hGnodes, ?_⟩
  unfold selectEndpoints
  rw [hGnodes]
  dsimp only
  rw [List.head?_eq_head hne, List.getLast?_eq_getLast_of_ne_nil hne]
  rfl

/-- Witness for the amended default-endpoint theorem: devices `["A","B"]`
whose only connection stays inside the device list default to source `"A"`
and target `"B"`. -/
theorem main_default_endpoints_witness :
    build_graph (.obj [("devices", .arr [.str "A", .str "B"]),
      ("connections", .arr [.arr [.str "A", .str "B"]])]) =
      .ok ⟨[.str "A", .str "B"], [(.str "A", .str "B", 1)]⟩ ∧
    (⟨[.str "A", .str "B"], [(.str "A", .str "B", 1)]⟩ : Graph).nodes =
      [.str "A", .str "B"] ∧
    selectEndpoints ⟨[.str "A", .str "B"], [(.str "A", .str "B", 1)]⟩
      none none = some (.str "A", .str "B") := by
  have h := @main_default_endpoints
    [("devices", .arr [.str "A", .str "B"]),
      ("connections", .arr [.arr [.str "A", .str "B"]])]
    [.str "A", .str "B"] [.arr [.str "A", .str "B"]]
    ⟨[.str "A", .str "B"], [(.str "A", .str "B", 1)]⟩
    (by decide) (by decide) (by decide) (by decide)
    (by
      intro conn hc u v rest hs
      rw [List.mem_singleton] at hc
      subst hc
      cases hs
      exact ⟨by decide, by decide⟩)
    (by decide)
  exact ⟨by decide, h.1, h.2⟩

/-- **C9.** A valid input that yields a graph with no nodes (empty device
list, no usable connection rows) makes `main` fail when defaulting the
endpoints: `devices[0]` raises an unhandled `IndexError` (modelled by
`selectEndpoints` returning `none`) instead of exiting cleanly. -/
theorem main_empty_graph_index_error
    {fields : List (String × JSON)} {conns : List JSON} {G : Graph}
    (hdev : dictGet fields "devices" = some (.arr []))
    (hcon : dictGet fields "connections" = some (.arr conns))
    (hshort : ∀ conn ∈ conns, ∀ xs, pySeq conn = .ok xs → xs.length < 2)
    (hok : build_graph (.obj fields) = .ok G) :
    G.nodes = [] ∧ selectEndpoints G none none = none := by
  unfold build_graph at hok
  dsimp only at hok
  rw [hdev, hcon] at hok
  dsimp only [Option.getD, pySeq] at hok
  have hGnodes : G.nodes = [] := by
    rw [buildEdges_nodes conns _ G hok]
    · rfl
    · intro conn hc u v rest hs
      have := hshort conn hc (u :: v :: rest) hs
      rw [List.length_cons, List.length_cons] at this
      exact absurd this (by omega)
  refine ⟨hGnodes, ?_⟩
  unfold selectEndpoints
  rw [hGnodes]
  rfl

/-- Witness for the empty-graph theorem: empty devices and a single
one-element connection row. -/
theorem main_empty_graph_index_error_witness :
    build_graph emptyDevicesNetwork = .ok ⟨[], []⟩ ∧
    (⟨[], []⟩ : Graph).nodes = [] ∧
    selectEndpoints ⟨[], []⟩ none none = none := by
  have h := @main_empty_graph_index_error
    [("devices", .arr []), ("connections", .arr [.arr [.str "A"]])]
    [.arr [.str "A"]] ⟨[], []⟩
    (by decide) (by decide)
    (by
      intro conn hc xs hs
      rw [List.mem_singleton] at hc
      subst hc
      cases hs
      decide)
    (by decide)
  exact ⟨by decide, h.1, h.2⟩
